import Mathlib

/-!
Shallow embedding of the `Argparser` C library (src/argparser.c, with identical
copies of the same routines in src/argparser.h and src/myargs.h).

C strings are modelled as `List Char`; a nullable `char *` is an
`Option (List Char)` with `none` playing the role of `NULL`.  The registry
(`ArgumentParser_t`) and its specs (`Argument_t`) are modelled field by field.
`parse_args` is split, exactly following the C control flow, into a token scan
(`processToken`, folded over `argv` from index 1) and the post-scan validation
pass (`postScan`), which either exits the process on a missing required
argument (modelled as `Except.error` carrying the stderr diagnostic and the
exit status) or fills unset slots from the defaults.
-/

/-- A C string, as a list of characters (without the terminating NUL). -/
abbrev Str := List Char

/-- The enum `ArgumentType` of argparser.h: flag, keyword or positional. -/
inductive ArgumentType where
  | FLAG
  | KWARG
  | ARG
  deriving DecidableEq, Repr

/-- The struct `Argument_t`.  `count` (the `nargs` field) is written only by
`add_arg`; `add_flag` and `add_kwarg` leave it uninitialized in the C code,
which we model as `none`.  No code path of the claims reads it. -/
structure Argument where
  type : ArgumentType
  def_val : Option Str
  required : Bool
  help : Option Str
  name : Str
  count : Option Int
  sym : Char
  value : Option Str
  deriving DecidableEq, Repr

/-- The struct `ArgumentParser_t`.  The C `count` field always equals the
length of the `arguments` array and is represented by `arguments.length`. -/
structure ArgumentParser where
  program : Option Str
  usage : Option Str
  epilog : Option Str
  description : Option Str
  arguments : List Argument
  prefix_char : Char
  argument_default : Option Str
  add_help : Bool
  allow_abbrev : Bool
  exit_on_error : Bool
  deriving DecidableEq, Repr

/-- C `strdup` lifted to nullable strings.  For a non-NULL argument it returns
a copy, i.e. the same string value.  `strdup(NULL)` is undefined behaviour in
ISO C; the library calls it on every long-form token without `=` and on every
short-form keyword without `=`, so a semantics must be chosen: we adopt the
NULL-returning refinement (the documented behaviour of `_strdup` on Windows,
one of the library's supported platforms, and the behaviour the repository's
spec describes), making `strdup` the identity on nullable strings. -/
def strdup (s : Option Str) : Option Str := s

/-- The string literal `"true"` stored by `parse_args` into matched flags. -/
def trueStr : Str := ['t', 'r', 'u', 'e']

/-- The `sym ? sym : '0'` initialisation shared by `add_arg`, `add_kwarg` and
`add_flag`: a NUL (falsy) symbol is replaced by the digit character `'0'`. -/
def mkSym (sym : Char) : Char := if sym = Char.ofNat 0 then '0' else sym

/-- The C function `add_arg`: appends a positional (`ARG`) spec. -/
def add_arg (parser : ArgumentParser) (sym : Char) (name : Str) (required : Bool)
    (nargs : Int) (default_value : Option Str) (help : Option Str) : ArgumentParser :=
  { parser with arguments := parser.arguments ++
      [{ type := .ARG, def_val := strdup default_value, required := required,
         help := strdup help, name := name, count := some nargs,
         sym := mkSym sym, value := none }] }

/-- The C function `add_kwarg`: appends a keyword (`KWARG`) spec. -/
def add_kwarg (parser : ArgumentParser) (sym : Char) (name : Str) (required : Bool)
    (default_value : Option Str) (help : Option Str) : ArgumentParser :=
  { parser with arguments := parser.arguments ++
      [{ type := .KWARG, def_val := strdup default_value, required := required,
         help := strdup help, name := name, count := none,
         sym := mkSym sym, value := none }] }

/-- The C function `add_flag`: appends a flag (`FLAG`) spec with
`required = 0` and no default. -/
def add_flag (parser : ArgumentParser) (sym : Char) (name : Str)
    (help : Option Str) : ArgumentParser :=
  { parser with arguments := parser.arguments ++
      [{ type := .FLAG, def_val := none, required := false,
         help := strdup help, name := name, count := none,
         sym := mkSym sym, value := none }] }

/-- The `strchr(arg, '=')` splitting prologue shared by all three branches of
`parse_args`: the token is cut at the first `'='`; the first component is the
part before it (`arg` after `*value = '\0'`), the second is the part after it,
or `none` when the token has no `'='`. -/
def splitEq : Str → Str × Option Str
  | [] => ([], none)
  | c :: cs =>
    if c = '=' then ([], some cs)
    else (c :: (splitEq cs).1, (splitEq cs).2)

/-- A `for` loop over the spec array that applies `f` to the first spec
satisfying `p` and then `break`s; specs before the first match, and everything
after it, are left untouched.  Each matching loop of `parse_args` and each
accessor is an instance of this shape. -/
def updateFirst (p : Argument → Prop) [DecidablePred p]
    (f : Argument → Argument) : List Argument → List Argument
  | [] => []
  | a :: rest => if p a then f a :: rest else a :: updateFirst p f rest

/-- The exact-name match used by the long-form first loop and the accessors. -/
def nameMatch (nm : Str) (a : Argument) : Prop := a.name = nm

instance nameMatchDecidable (nm : Str) : DecidablePred (nameMatch nm) :=
  fun a => inferInstanceAs (Decidable (a.name = nm))

/-- The condition of the second long-form loop of `parse_args`: same name and
`FLAG` or `KWARG` type (a positional spec with the name does not `break` the
loop, which keeps scanning). -/
def namedFK (nm : Str) (a : Argument) : Prop :=
  a.name = nm ∧ (a.type = .FLAG ∨ a.type = .KWARG)

instance namedFKDecidable (nm : Str) : DecidablePred (namedFK nm) :=
  fun a => inferInstanceAs (Decidable (a.name = nm ∧ (a.type = .FLAG ∨ a.type = .KWARG)))

/-- The condition of the inner short-form loop of `parse_args`: matching
symbol and `FLAG` or `KWARG` type (a positional spec with the symbol does not
`break` the loop). -/
def symMatch (c : Char) (a : Argument) : Prop :=
  a.sym = c ∧ (a.type = .FLAG ∨ a.type = .KWARG)

instance symMatchDecidable (c : Char) : DecidablePred (symMatch c) :=
  fun a => inferInstanceAs (Decidable (a.sym = c ∧ (a.type = .FLAG ∨ a.type = .KWARG)))

/-- The two sequential loops run by `parse_args` for a long-form token (and,
identically, for a bare token): the first loop stores `strdup(value)` into the
first spec with the matching name regardless of its type; the second loop
finds the first matching spec of `FLAG` or `KWARG` type and stores
`strdup("true")` or `strdup(value)` respectively (the C `if`/`else if` pair
with a shared `break`). -/
def assignLong (as : List Argument) (nm : Str) (v : Option Str) : List Argument :=
  updateFirst (namedFK nm)
    (fun a => if a.type = .FLAG then { a with value := strdup (some trueStr) }
      else { a with value := strdup v })
    (updateFirst (nameMatch nm) (fun a => { a with value := strdup v }) as)

/-- The short-form loops of `parse_args`: every character of the symbol part
is resolved in turn by an inner first-match loop over the specs, flags
receiving `strdup("true")` and keywords the single shared `strdup(value)`. -/
def assignShort (as : List Argument) (syms : Str) (v : Option Str) : List Argument :=
  syms.foldl
    (fun acc c =>
      updateFirst (symMatch c)
        (fun a => if a.type = .FLAG then { a with value := strdup (some trueStr) }
          else { a with value := strdup v }) acc) as

/-- The body of the token loop of `parse_args` for one token `argv[i]`: the
long-form branch (`strncmp(argv[i], "--", 2) == 0`), the short-form branch
(`strncmp(argv[i], "-", 1) == 0`), or the bare-token branch, whose two loops
are character-for-character those of the long-form branch (its additional
`printf` of the token to stdout is a side effect no claim observes and is not
modelled). -/
def processToken (as : List Argument) (t : Str) : List Argument :=
  if t.take 2 = ['-', '-'] then
    assignLong as (splitEq (t.drop 2)).1 (splitEq (t.drop 2)).2
  else if t.take 1 = ['-'] then
    assignShort as (splitEq (t.drop 1)).1 (splitEq (t.drop 1)).2
  else
    assignLong as (splitEq t).1 (splitEq t).2

/-- The scan phase of `parse_args`: the token loop `for (i = 1; i < argc; i++)`
over the argument vector (skipping `argv[0]`, the program name). -/
def scan_tokens (parser : ArgumentParser) (argv : List Str) : List Argument :=
  (argv.drop 1).foldl processToken parser.arguments

/-- The observable outcome of `exit(EXIT_FAILURE)` in `parse_args`: the
diagnostic line printed to standard error and the process exit status. -/
structure ParseFailure where
  stderr_msg : Str
  exit_code : Nat
  deriving DecidableEq, Repr

/-- The diagnostic `fprintf(stderr, "Missing required argument: %s\n", name)`. -/
def missingRequiredMsg (nm : Str) : Str :=
  ("Missing required argument: ").data ++ nm ++ ['\n']

/-- The default substitution `if (!value) value = def_val;` applied by the
post-scan pass of `parse_args` to one spec. -/
def defaultFill (a : Argument) : Argument :=
  if a.value = none then { a with value := a.def_val } else a

/-- The post-scan validation pass of `parse_args`: in spec order, a required
spec whose value is still `NULL` aborts the process (`.error`, carrying the
stderr diagnostic and `EXIT_FAILURE = 1`); otherwise a still-`NULL` value is
populated from `def_val`. -/
def postScan : List Argument → Except ParseFailure (List Argument)
  | [] => .ok []
  | a :: rest =>
    if a.required = true ∧ a.value = none then
      .error { stderr_msg := missingRequiredMsg a.name, exit_code := 1 }
    else
      match postScan rest with
      | .error e => .error e
      | .ok rest' => .ok (defaultFill a :: rest')

/-- The C function `parse_args`: scan every token of `argv` past the program
name, then run the post-scan validation pass; `.error` is the process
terminating via `exit(EXIT_FAILURE)` after the stderr diagnostic, `.ok` is a
normal return with the updated registry. -/
def parse_args (parser : ArgumentParser) (argv : List Str) :
    Except ParseFailure ArgumentParser :=
  match postScan (scan_tokens parser argv) with
  | .error e => .error e
  | .ok as => .ok { parser with arguments := as }

/-- The first-match-by-name lookup loop shared by `get_arg`, `get_kwarg` and
`get_flag`: these accessors return at the first spec whose name matches,
whatever its type. -/
def lookupName : List Argument → Str → Option Argument
  | [], _ => none
  | a :: rest, nm => if a.name = nm then some a else lookupName rest nm

/-- The first sym-match of the inner short-form loop: the first spec with the
given symbol whose type is `FLAG` or `KWARG` (positional specs are skipped). -/
def lookupSym : List Argument → Char → Option Argument
  | [], _ => none
  | a :: rest, c => if symMatch c a then some a else lookupSym rest c

/-- The C function `get_arg`: on the first name match, return the value (or
the default when the value is `NULL`) if the spec is positional, and `NULL`
otherwise; `NULL` when no name matches. -/
def get_arg (parser : ArgumentParser) (name : Str) : Option Str :=
  match lookupName parser.arguments name with
  | none => none
  | some a =>
    if a.type = .ARG then
      match a.value with
      | some v => some v
      | none => a.def_val
    else none

/-- The C function `get_kwarg`: as `get_arg`, gated on the `KWARG` type. -/
def get_kwarg (parser : ArgumentParser) (name : Str) : Option Str :=
  match lookupName parser.arguments name with
  | none => none
  | some a =>
    if a.type = .KWARG then
      match a.value with
      | some v => some v
      | none => a.def_val
    else none

/-- The C function `get_flag`: 1 (`true`) when the first name match is a flag
with a non-`NULL` value, 0 (`false`) otherwise. -/
def get_flag (parser : ArgumentParser) (name : Str) : Bool :=
  match lookupName parser.arguments name with
  | none => false
  | some a => if a.type = .FLAG then a.value.isSome else false

instance exceptDecidableEq {ε α : Type} [DecidableEq ε] [DecidableEq α] :
    DecidableEq (Except ε α) := fun x y =>
  match x, y with
  | .error a, .error b => if h : a = b then .isTrue (by rw [h]) else .isFalse (by simp [h])
  | .ok a, .ok b => if h : a = b then .isTrue (by rw [h]) else .isFalse (by simp [h])
  | .error _, .ok _ => .isFalse (by simp)
  | .ok _, .error _ => .isFalse (by simp)

/-- A registry with no specs, as left by the field assignments at the top of
`init_parser` before the auto-registration of the help flag. -/
def emptyP : ArgumentParser :=
  { program := none, usage := none, epilog := none, description := none,
    arguments := [], prefix_char := '-', argument_default := none,
    add_help := true, allow_abbrev := true, exit_on_error := true }

/-- The number of matches of `p` among the specs, counting duplicates: the
uniqueness hypotheses of the short-form theorems bound it by one. -/
def countMatch (p : Argument → Prop) [DecidablePred p] : List Argument → Nat
  | [] => 0
  | a :: rest => (if p a then 1 else 0) + countMatch p rest

/-- The per-spec effect of one short-form token, used to state the bundled
short-form claim: under symbol uniqueness, a flag whose symbol occurs in the
token is set to `"true"`, a keyword whose symbol occurs receives the single
shared trailing value, and every other spec is untouched. -/
def shortApply (syms : Str) (v : Option Str) (a : Argument) : Argument :=
  if a.sym ∈ syms ∧ a.type = .FLAG then { a with value := strdup (some trueStr) }
  else if a.sym ∈ syms ∧ a.type = .KWARG then { a with value := strdup v }
  else a

/-- The effect of one character of a short-form token on one spec, assuming
at most one spec matches the character (the body of the inner loop, written
pointwise): the hit spec takes `"true"` or the shared value, others stay. -/
def shortStep (v : Option Str) (c : Char) (a : Argument) : Argument :=
  if symMatch c a then
    (if a.type = .FLAG then { a with value := strdup (some trueStr) }
      else { a with value := strdup v })
  else a

/-- Sample program name for the concrete witnesses. -/
def progStr : Str := ['p']

/-- Sample keyword name `"count"`. -/
def countName : Str := ['c', 'o', 'u', 'n', 't']

/-- The spec produced by `add_kwarg(parser, 'c', "count", 0, "7", NULL)`. -/
def countSpec : Argument :=
  { type := .KWARG, def_val := some ['7'], required := false, help := none,
    name := countName, count := none, sym := 'c', value := none }

/-- A registry holding only the `count` keyword (default `"7"`). -/
def cP : ArgumentParser := add_kwarg emptyP 'c' countName false (some ['7']) none

/-- The `count` registry after parsing `--count=5`. -/
def cP5 : ArgumentParser :=
  { cP with arguments := [{ countSpec with value := some ['5'] }] }

/-- The `count` registry after parsing an empty argument vector: the default
`"7"` has been substituted by the post-scan pass. -/
def cPd : ArgumentParser :=
  { cP with arguments := [{ countSpec with value := some ['7'] }] }

/-- Sample flag name `"verbose"`. -/
def verbName : Str := ['v', 'e', 'r', 'b', 'o', 's', 'e']

/-- The spec produced by `add_flag(parser, 'v', "verbose", NULL)`. -/
def verbSpec : Argument :=
  { type := .FLAG, def_val := none, required := false, help := none,
    name := verbName, count := none, sym := 'v', value := none }

/-- A registry holding only the `verbose` flag. -/
def vP : ArgumentParser := add_flag emptyP 'v' verbName none

/-- The `verbose` registry after parsing `--verbose`. -/
def vPT : ArgumentParser :=
  { vP with arguments := [{ verbSpec with value := some trueStr }] }

/-- Sample flag name `"store"`. -/
def storeName : Str := ['s', 't', 'o', 'r', 'e']

/-- A registry with the two flags `verbose` (`v`) and `store` (`s`). -/
def vsP : ArgumentParser := add_flag (add_flag emptyP 'v' verbName none) 's' storeName none

/-- Sample positional name `"out"`. -/
def reqName : Str := ['o', 'u', 't']

/-- A registry holding one required positional with a default, as built by
`add_arg(parser, 'o', "out", 1, 1, "d", NULL)`. -/
def reqP : ArgumentParser := add_arg emptyP 'o' reqName true 1 (some ['d']) none

/-- The spec stored by `reqP`: required, with default `"d"`, value unset. -/
def reqSpec : Argument :=
  { type := .ARG, def_val := some ['d'], required := true, help := none,
    name := reqName, count := some 1, sym := 'o', value := none }

/-- Sample name `"zero"` for a spec registered with the NUL sentinel symbol. -/
def zeroName : Str := ['z', 'e', 'r', 'o']

/-- A registry whose only spec was registered with the `'\0'` sentinel
symbol; `add_flag` stores the digit `'0'` in its `sym` field. -/
def zeroP : ArgumentParser := add_flag emptyP (Char.ofNat 0) zeroName none

/-- The spec stored by `zeroP`: note `sym = '0'`, the digit. -/
def zeroSpec : Argument :=
  { type := .FLAG, def_val := none, required := false, help := none,
    name := zeroName, count := none, sym := '0', value := none }

/-! Helper lemmas about the embedded operations. -/

/-- The accessors' name search only ever returns a registered spec. -/
theorem lookupName_mem {as : List Argument} {nm : Str} {a : Argument}
    (h : lookupName as nm = some a) : a ∈ as := by
  induction as with
  | nil => simp [lookupName] at h
  | cons b rest ih =>
    rw [lookupName] at h
    by_cases hb : b.name = nm
    · rw [if_pos hb] at h
      injection h with h
      exact h ▸ List.mem_cons_self b rest
    · rw [if_neg hb] at h
      exact List.mem_cons_of_mem _ (ih h)

/-- A token without `'='` is not split: the whole token is the name part. -/
theorem splitEq_no_eq {s : Str} (h : '=' ∉ s) : splitEq s = (s, none) := by
  induction s with
  | nil => rfl
  | cons c cs ih =>
    have h1 : ¬ c = '=' := by
      intro hc
      subst hc
      exact h (List.mem_cons_self _ _)
    have h2 : '=' ∉ cs := fun hc => h (List.mem_cons_of_mem c hc)
    simp [splitEq, h1, ih h2]

/-- Splitting at the first `'='` of `name=value` yields the name and value. -/
theorem splitEq_before_eq {nm v : Str} (h : '=' ∉ nm) :
    splitEq (nm ++ '=' :: v) = (nm, some v) := by
  induction nm with
  | nil => simp [splitEq]
  | cons c cs ih =>
    have h1 : ¬ c = '=' := by
      intro hc
      subst hc
      exact h (List.mem_cons_self _ _)
    have h2 : '=' ∉ cs := fun hc => h (List.mem_cons_of_mem c hc)
    simp [splitEq, h1, ih h2]

/-- A first-match loop over specs none of which match is a no-op. -/
theorem updateFirst_nomatch {p : Argument → Prop} [DecidablePred p]
    {f : Argument → Argument} {as : List Argument}
    (h : ∀ a ∈ as, ¬ p a) : updateFirst p f as = as := by
  induction as with
  | nil => rfl
  | cons b rest ih =>
    rw [updateFirst, if_neg (h b (List.mem_cons_self _ _))]
    rw [ih (fun a ha => h a (List.mem_cons_of_mem _ ha))]

/-- A spec that does not satisfy the loop condition keeps its slot across a
first-match loop. -/
theorem updateFirst_getElem {p : Argument → Prop} [DecidablePred p]
    {f : Argument → Argument} {as : List Argument} {i : Nat} {a : Argument}
    (ha : as[i]? = some a) (hna : ¬ p a) :
    (updateFirst p f as)[i]? = some a := by
  induction as generalizing i with
  | nil => simp at ha
  | cons b rest ih =>
    rw [updateFirst]
    by_cases hb : p b
    · rw [if_pos hb]
      cases i with
      | zero =>
        simp only [List.getElem?_cons_zero] at ha
        injection ha with ha
        exact absurd (ha ▸ hb) hna
      | succ n =>
        simp only [List.getElem?_cons_succ] at ha ⊢
        exact ha
    · rw [if_neg hb]
      cases i with
      | zero => simpa using ha
      | succ n =>
        simp only [List.getElem?_cons_succ] at ha ⊢
        exact ih ha

/-- Name lookup commutes with mapping a name-preserving function. -/
theorem lookupName_map {f : Argument → Argument} (hf : ∀ a, (f a).name = a.name)
    (as : List Argument) (nm : Str) :
    lookupName (as.map f) nm = (lookupName as nm).map f := by
  induction as with
  | nil => rfl
  | cons b rest ih =>
    rw [List.map_cons, lookupName, lookupName, hf b]
    by_cases hb : b.name = nm
    · rw [if_pos hb, if_pos hb]
      rfl
    · rw [if_neg hb, if_neg hb]
      exact ih

/-- Default substitution does not touch the name. -/
theorem defaultFill_name (a : Argument) : (defaultFill a).name = a.name := by
  unfold defaultFill
  split <;> rfl

/-- Default substitution does not touch the type. -/
theorem defaultFill_type (a : Argument) : (defaultFill a).type = a.type := by
  unfold defaultFill
  split <;> rfl

/-- Default substitution leaves a slot that already holds a value alone. -/
theorem defaultFill_of_some {a : Argument} {w : Str} (h : a.value = some w) :
    defaultFill a = a := by
  unfold defaultFill
  rw [if_neg (by simp [h])]

/-- Default substitution fills an unset slot from the declared default. -/
theorem defaultFill_of_none {a : Argument} (h : a.value = none) :
    defaultFill a = { a with value := a.def_val } := by
  unfold defaultFill
  rw [if_pos h]

/-- The post-scan pass returns normally exactly when no spec is required yet
unset, and then every still-unset slot has been filled from its default. -/
theorem postScan_ok_iff {as as' : List Argument} :
    postScan as = .ok as' ↔
      ((∀ a ∈ as, ¬(a.required = true ∧ a.value = none)) ∧
        as' = as.map defaultFill) := by
  induction as generalizing as' with
  | nil =>
    rw [postScan]
    constructor
    · intro h
      injection h with h
      exact ⟨by intro a ha; simp at ha, h.symm⟩
    · rintro ⟨-, rfl⟩
      rfl
  | cons b rest ih =>
    rw [postScan]
    by_cases hb : b.required = true ∧ b.value = none
    · rw [if_pos hb]
      constructor
      · intro h
        cases h
      · rintro ⟨hall, -⟩
        exact absurd hb (hall b (List.mem_cons_self _ _))
    · rw [if_neg hb]
      cases hps : postScan rest with
      | error e =>
        constructor
        · intro h
          cases h
        · rintro ⟨hall, -⟩
          have hok := ih.mpr
            ⟨fun a ha => hall a (List.mem_cons_of_mem _ ha), rfl⟩
          rw [hps] at hok
          cases hok
      | ok rest' =>
        obtain ⟨hall', hmap'⟩ := ih.mp hps
        constructor
        · intro h
          injection h with h
          subst h
          refine ⟨?_, ?_⟩
          · intro a ha
            rcases List.mem_cons.mp ha with h1 | h1
            · subst h1
              exact hb
            · exact hall' a h1
          · rw [List.map_cons, hmap']
        · rintro ⟨-, rfl⟩
          rw [List.map_cons, ← hmap']

/-- If after the scan some spec is required while its value is still unset,
the post-scan pass aborts with exit status 1 and the stderr diagnostic names
such a spec. -/
theorem postScan_error_of_missing {as : List Argument}
    (h : ∃ a ∈ as, a.required = true ∧ a.value = none) :
    ∃ e, postScan as = .error e ∧ e.exit_code = 1 ∧
      ∃ a ∈ as, a.required = true ∧ a.value = none ∧
        e.stderr_msg = missingRequiredMsg a.name := by
  induction as with
  | nil => simp at h
  | cons b rest ih =>
    rw [postScan]
    by_cases hb : b.required = true ∧ b.value = none
    · rw [if_pos hb]
      exact ⟨_, rfl, rfl, b, List.mem_cons_self _ _, hb.1, hb.2, rfl⟩
    · rw [if_neg hb]
      have hrest : ∃ a ∈ rest, a.required = true ∧ a.value = none := by
        obtain ⟨a, ha, hp⟩ := h
        rcases List.mem_cons.mp ha with h1 | h1
        · exact absurd (h1 ▸ hp) hb
        · exact ⟨a, h1, hp⟩
      obtain ⟨e, he, hc, a, ha, h1, h2, h3⟩ := ih hrest
      rw [he]
      exact ⟨e, rfl, hc, a, List.mem_cons_of_mem _ ha, h1, h2, h3⟩

/-- A normal return of `parse_args` carries the scanned specs with the
post-scan default substitution applied slotwise. -/
theorem parse_args_ok_arguments {p : ArgumentParser} {argv : List Str}
    {p' : ArgumentParser} (h : parse_args p argv = .ok p') :
    p'.arguments = (scan_tokens p argv).map defaultFill := by
  unfold parse_args at h
  rcases hps : postScan (scan_tokens p argv) with e | as <;> rw [hps] at h
  · cases h
  · injection h with h
    obtain ⟨-, hmap⟩ := postScan_ok_iff.mp hps
    rw [← h]
    exact hmap

/-- When the first name match of a long-form token is a keyword, both loops of
the long-form branch hit that spec and the net effect is storing
`strdup(value)` there; name lookup afterwards sees the updated spec. -/
theorem lookupName_assignLong_kwarg {as : List Argument} {nm : Str} {a : Argument}
    (v : Option Str) (h : lookupName as nm = some a) (ht : a.type = .KWARG) :
    lookupName (assignLong as nm v) nm = some { a with value := strdup v } := by
  induction as with
  | nil => simp [lookupName] at h
  | cons b rest ih =>
    rw [lookupName] at h
    by_cases hb : b.name = nm
    · rw [if_pos hb] at h
      injection h with h
      subst h
      unfold assignLong
      rw [updateFirst, if_pos (show nameMatch nm b from hb)]
      rw [updateFirst, if_pos (show namedFK nm { b with value := strdup v } from ⟨hb, Or.inr ht⟩)]
      rw [if_neg (show ¬ ({ b with value := strdup v } : Argument).type = ArgumentType.FLAG from
        fun hc => ArgumentType.noConfusion (ht ▸ (hc : b.type = ArgumentType.FLAG)))]
      rw [lookupName, if_pos (show ({ b with value := strdup v } : Argument).name = nm from hb)]
    · rw [if_neg hb] at h
      have hstep : assignLong (b :: rest) nm v = b :: assignLong rest nm v := by
        unfold assignLong
        rw [updateFirst, if_neg (show ¬ nameMatch nm b from hb)]
        rw [updateFirst, if_neg (show ¬ namedFK nm b from fun hc => hb hc.1)]
      rw [hstep, lookupName, if_neg hb]
      exact ih h

/-- When the first name match of a long-form token is a flag, the first loop
stores `strdup(value)` and the second loop overwrites it with `"true"`; name
lookup afterwards sees the spec set to `"true"`. -/
theorem lookupName_assignLong_flag {as : List Argument} {nm : Str} {a : Argument}
    (v : Option Str) (h : lookupName as nm = some a) (ht : a.type = .FLAG) :
    lookupName (assignLong as nm v) nm = some { a with value := strdup (some trueStr) } := by
  induction as with
  | nil => simp [lookupName] at h
  | cons b rest ih =>
    rw [lookupName] at h
    by_cases hb : b.name = nm
    · rw [if_pos hb] at h
      injection h with h
      subst h
      unfold assignLong
      rw [updateFirst, if_pos (show nameMatch nm b from hb)]
      rw [updateFirst, if_pos (show namedFK nm { b with value := strdup v } from ⟨hb, Or.inl ht⟩)]
      rw [if_pos (show ({ b with value := strdup v } : Argument).type = ArgumentType.FLAG from ht)]
      rw [lookupName, if_pos (show ({ b with value := strdup v } : Argument).name = nm from hb)]
    · rw [if_neg hb] at h
      have hstep : assignLong (b :: rest) nm v = b :: assignLong rest nm v := by
        unfold assignLong
        rw [updateFirst, if_neg (show ¬ nameMatch nm b from hb)]
        rw [updateFirst, if_neg (show ¬ namedFK nm b from fun hc => hb hc.1)]
      rw [hstep, lookupName, if_neg hb]
      exact ih h

/-- A first-match update whose condition and effect track the inner
short-form loop is visible to the matching `lookupSym` afterwards, provided
the update preserves symbol and type. -/
theorem lookupSym_updateFirst {as : List Argument} {c : Char} {a : Argument}
    {f : Argument → Argument} (h : lookupSym as c = some a)
    (hf : ∀ x, (f x).sym = x.sym ∧ (f x).type = x.type) :
    lookupSym (updateFirst (symMatch c) f as) c = some (f a) := by
  induction as with
  | nil => simp [lookupSym] at h
  | cons b rest ih =>
    rw [lookupSym] at h
    by_cases hb : symMatch c b
    · rw [if_pos hb] at h
      injection h with h
      subst h
      rw [updateFirst, if_pos hb]
      rw [lookupSym, if_pos (show symMatch c (f b) from
        ⟨(hf b).1.trans hb.1, by rw [(hf b).2]; exact hb.2⟩)]
    · rw [if_neg hb] at h
      rw [updateFirst, if_neg hb, lookupSym, if_neg hb]
      exact ih h

/-- A predicate with no match among the specs counts zero matches. -/
theorem countMatch_eq_zero {p : Argument → Prop} [DecidablePred p]
    {as : List Argument} (h : ∀ a ∈ as, ¬ p a) : countMatch p as = 0 := by
  induction as with
  | nil => rfl
  | cons b rest ih =>
    rw [countMatch, if_neg (h b (List.mem_cons_self _ _))]
    rw [ih (fun a ha => h a (List.mem_cons_of_mem _ ha))]

/-- Conversely, zero matches means no spec satisfies the predicate. -/
theorem countMatch_zero_imp {p : Argument → Prop} [DecidablePred p]
    {as : List Argument} (h : countMatch p as = 0) : ∀ a ∈ as, ¬ p a := by
  induction as with
  | nil => intro a ha; simp at ha
  | cons b rest ih =>
    rw [countMatch] at h
    intro a ha
    rcases List.mem_cons.mp ha with h1 | h1
    · subst h1
      intro hpa
      rw [if_pos hpa] at h
      omega
    · refine ih ?_ a h1
      by_cases hb : p b
      · rw [if_pos hb] at h; omega
      · rw [if_neg hb] at h; omega

/-- Mapping a function that fixes every non-matching spec over a list without
matches is the identity. -/
theorem map_if_nomatch {p : Argument → Prop} [DecidablePred p]
    {f : Argument → Argument} {as : List Argument} (h : ∀ a ∈ as, ¬ p a) :
    as.map (fun a => if p a then f a else a) = as := by
  induction as with
  | nil => rfl
  | cons b rest ih =>
    rw [List.map_cons, if_neg (h b (List.mem_cons_self _ _))]
    rw [ih (fun a ha => h a (List.mem_cons_of_mem _ ha))]

/-- With at most one matching spec, the first-match loop coincides with the
pointwise map that rewrites every matching spec. -/
theorem updateFirst_eq_map {p : Argument → Prop} [DecidablePred p]
    {f : Argument → Argument} {as : List Argument} (h : countMatch p as ≤ 1) :
    updateFirst p f as = as.map (fun a => if p a then f a else a) := by
  induction as with
  | nil => rfl
  | cons b rest ih =>
    rw [updateFirst, List.map_cons]
    by_cases hb : p b
    · rw [if_pos hb, if_pos hb]
      have h0 : countMatch p rest = 0 := by
        rw [countMatch, if_pos hb] at h
        omega
      rw [map_if_nomatch (countMatch_zero_imp h0)]
    · rw [if_neg hb, if_neg hb]
      have h1 : countMatch p rest ≤ 1 := by
        rw [countMatch, if_neg hb] at h
        omega
      rw [ih h1]

/-- One step of the short-form loop preserves every spec's symbol. -/
theorem shortStep_sym (v : Option Str) (c : Char) (a : Argument) :
    (shortStep v c a).sym = a.sym := by
  unfold shortStep
  split
  · split <;> rfl
  · rfl

/-- One step of the short-form loop preserves every spec's type. -/
theorem shortStep_type (v : Option Str) (c : Char) (a : Argument) :
    (shortStep v c a).type = a.type := by
  unfold shortStep
  split
  · split <;> rfl
  · rfl

/-- Symbol-match counts are invariant under one short-form step, since the
step preserves symbols and types. -/
theorem countMatch_map_shortStep (v : Option Str) (c c' : Char)
    (as : List Argument) :
    countMatch (symMatch c') (as.map (shortStep v c)) = countMatch (symMatch c') as := by
  induction as with
  | nil => rfl
  | cons b rest ih =>
    rw [List.map_cons, countMatch, countMatch, ih]
    have hiff : symMatch c' (shortStep v c b) ↔ symMatch c' b := by
      unfold symMatch
      rw [shortStep_sym, shortStep_type]
    rw [if_congr hiff rfl rfl]

/-- Pointwise accumulation of the per-character effects of one short token:
applying one more character in front of the remaining ones. -/
theorem shortApply_step (c : Char) (cs : Str) (v : Option Str) (a : Argument) :
    shortApply cs v (shortStep v c a) = shortApply (c :: cs) v a := by
  unfold shortStep shortApply symMatch
  by_cases hsc : a.sym = c
  · by_cases hF : a.type = ArgumentType.FLAG
    · simp [hsc, hF, List.mem_cons]
    · by_cases hK : a.type = ArgumentType.KWARG
      · simp [hsc, hF, hK, List.mem_cons]
      · simp [hsc, hF, hK, List.mem_cons]
  · simp [hsc, List.mem_cons]

/-- With at most one spec per symbol, the short-form loops act pointwise:
each spec is transformed by `shortApply` for the token's symbol part and
shared value. -/
theorem assignShort_eq_map {as : List Argument} {syms : Str} {v : Option Str}
    (h : ∀ c, countMatch (symMatch c) as ≤ 1) :
    assignShort as syms v = as.map (shortApply syms v) := by
  induction syms generalizing as with
  | nil =>
    show as = as.map (shortApply [] v)
    have hpt : ∀ a ∈ as, shortApply [] v a = id a := by
      intro a _
      unfold shortApply
      rw [if_neg (fun hc => List.not_mem_nil _ hc.1),
        if_neg (fun hc => List.not_mem_nil _ hc.1)]
      rfl
    rw [List.map_congr_left hpt, List.map_id]
  | cons c cs ih =>
    show assignShort (updateFirst (symMatch c) _ as) cs v = _
    rw [updateFirst_eq_map (h c)]
    have hmap : (as.map fun a => if symMatch c a then
        (if a.type = .FLAG then { a with value := strdup (some trueStr) }
          else { a with value := strdup v }) else a) = as.map (shortStep v c) := rfl
    rw [hmap]
    rw [ih (fun c' => by rw [countMatch_map_shortStep]; exact h c')]
    rw [List.map_map]
    exact List.map_congr_left (fun a _ => shortApply_step c cs v a)

/-- Under the data-model invariant that symbols are unique among flag and
keyword specs, every symbol has at most one matching spec. -/
theorem countMatch_le_one_of_pairwise {as : List Argument}
    (h : List.Pairwise (fun a b => a.type ≠ .ARG → b.type ≠ .ARG → a.sym ≠ b.sym) as)
    (c : Char) : countMatch (symMatch c) as ≤ 1 := by
  induction as with
  | nil => simp [countMatch]
  | cons b rest ih =>
    rw [List.pairwise_cons] at h
    obtain ⟨hb, hrest⟩ := h
    rw [countMatch]
    by_cases hm : symMatch c b
    · rw [if_pos hm]
      have h0 : countMatch (symMatch c) rest = 0 := by
        apply countMatch_eq_zero
        intro a ha hma
        obtain ⟨hbs, hbt⟩ := hm
        obtain ⟨has, hat⟩ := hma
        have hbA : b.type ≠ .ARG := by
          rcases hbt with h1 | h1 <;> simp [h1]
        have haA : a.type ≠ .ARG := by
          rcases hat with h1 | h1 <;> simp [h1]
        exact hb a ha hbA haA (hbs.trans has.symm)
      omega
    · rw [if_neg hm]
      have := ih hrest
      omega

/-- A spec whose symbol occurs nowhere in a short token's symbol part is
untouched by the short-form loops. -/
theorem assignShort_getElem {as : List Argument} {syms : Str} {v : Option Str}
    {i : Nat} {a : Argument} (ha : as[i]? = some a)
    (hnot : ∀ c ∈ syms, a.sym ≠ c) :
    (assignShort as syms v)[i]? = some a := by
  induction syms generalizing as with
  | nil => exact ha
  | cons c cs ih =>
    have h1 := updateFirst_getElem (p := symMatch c)
      (f := fun a => if a.type = .FLAG then { a with value := strdup (some trueStr) }
        else { a with value := strdup v })
      ha (fun hm => hnot c (List.mem_cons_self _ _) hm.1)
    exact ih h1 (fun c' hc' => hnot c' (List.mem_cons_of_mem _ hc'))

/-- Scanning an argument vector holding the program name and one token
processes exactly that token. -/
theorem scan_tokens_single (p : ArgumentParser) (prog t : Str) :
    scan_tokens p [prog, t] = processToken p.arguments t := rfl

/-- A `--name=value` token takes the long-form branch and splits at the
first `'='`. -/
theorem processToken_long {as : List Argument} {nm v : Str} (h : '=' ∉ nm) :
    processToken as ('-' :: '-' :: (nm ++ '=' :: v)) = assignLong as nm (some v) := by
  unfold processToken
  rw [if_pos (show (('-' :: '-' :: (nm ++ '=' :: v)) : Str).take 2 = ['-', '-'] from rfl)]
  have hd : (('-' :: '-' :: (nm ++ '=' :: v)) : Str).drop 2 = nm ++ '=' :: v := rfl
  rw [hd, splitEq_before_eq h]

/-- A `--name` token without `'='` takes the long-form branch with an absent
value. -/
theorem processToken_long_noval {as : List Argument} {nm : Str} (h : '=' ∉ nm) :
    processToken as ('-' :: '-' :: nm) = assignLong as nm none := by
  unfold processToken
  rw [if_pos (show (('-' :: '-' :: nm) : Str).take 2 = ['-', '-'] from rfl)]
  have hd : (('-' :: '-' :: nm) : Str).drop 2 = nm := rfl
  rw [hd, splitEq_no_eq h]

/-! The ten claims. -/

/-- C1: for every registry and every argument vector, if after scanning all
tokens some spec has `required` set and its value still unset, `parse_args`
emits the "Missing required argument" diagnostic to standard error naming
such a spec and terminates the process with failure status 1; it does not
return normally. -/
theorem parse_missing_required_exits (p : ArgumentParser) (argv : List Str)
    (h : ∃ a ∈ scan_tokens p argv, a.required = true ∧ a.value = none) :
    ∃ e, parse_args p argv = .error e ∧ e.exit_code = 1 ∧
      ∃ a ∈ scan_tokens p argv, a.required = true ∧ a.value = none ∧
        e.stderr_msg = missingRequiredMsg a.name := by
  obtain ⟨e, he, hc, hrest⟩ := postScan_error_of_missing h
  refine ⟨e, ?_, hc, hrest⟩
  unfold parse_args
  rw [he]

/-- Witness for C1: a registry with one required positional and an empty
command line terminates with the diagnostic. -/
theorem parse_missing_required_exits_w :
    ∃ e, parse_args reqP [progStr] = .error e ∧ e.exit_code = 1 ∧
      ∃ a ∈ scan_tokens reqP [progStr], a.required = true ∧ a.value = none ∧
        e.stderr_msg = missingRequiredMsg a.name :=
  parse_missing_required_exits reqP [progStr] (by decide)

/-- C2: for a registered keyword spec named `N` (resolved first by name),
parsing the long-form token `--N=V` strips the `--` prefix, splits at the
first `'='` and stores `V` into that spec, so that `get_kwarg N` afterwards
returns `V`. -/
theorem long_keyword_sets_value (p : ArgumentParser) (nm v : Str) (a : Argument)
    (prog : Str) (p' : ArgumentParser) (hnm : '=' ∉ nm)
    (hl : lookupName p.arguments nm = some a) (ht : a.type = .KWARG)
    (hp : parse_args p [prog, '-' :: '-' :: (nm ++ '=' :: v)] = .ok p') :
    get_kwarg p' nm = some v := by
  have hargs := parse_args_ok_arguments hp
  rw [scan_tokens_single, processToken_long hnm] at hargs
  have hlk := lookupName_assignLong_kwarg (some v) hl ht
  have hlk2 : lookupName p'.arguments nm = some (defaultFill { a with value := some v }) := by
    rw [hargs, lookupName_map defaultFill_name, hlk]
    rfl
  rw [defaultFill_of_some
    (show ({ a with value := some v } : Argument).value = some v from rfl)] at hlk2
  unfold get_kwarg
  rw [hlk2]
  simp [ht]

/-- Witness for C2: parsing `--count=5` with `count` a registered keyword
makes `get_kwarg "count"` return `"5"`. -/
theorem long_keyword_sets_value_w : get_kwarg cP5 countName = some ['5'] :=
  long_keyword_sets_value cP countName ['5'] countSpec progStr cP5
    (by decide) (by decide) (by decide) (by decide)

/-- C3: each character of a short-form token (after the `-` prefix and before
any `=value` part) is resolved independently against the spec symbols: under
the data-model invariant that symbols are unique among flag/keyword specs,
every flag spec whose symbol occurs is set to `"true"` within that single
token and every keyword spec whose symbol occurs receives the same single
shared trailing value parsed from that token. -/
theorem short_token_bundles (as : List Argument) (t syms : Str) (v : Option Str)
    (ht2 : t.take 2 ≠ ['-', '-']) (ht1 : t.take 1 = ['-'])
    (hsplit : splitEq (t.drop 1) = (syms, v))
    (huniq : List.Pairwise (fun a b => a.type ≠ .ARG → b.type ≠ .ARG → a.sym ≠ b.sym) as) :
    processToken as t = as.map (shortApply syms v) := by
  unfold processToken
  rw [if_neg ht2, if_pos ht1, hsplit]
  exact assignShort_eq_map (countMatch_le_one_of_pairwise huniq)

/-- Witness for C3: `-vs` with the two registered flags `v` and `s` sets both
from a single token. -/
theorem short_token_bundles_w :
    processToken vsP.arguments ['-', 'v', 's'] = vsP.arguments.map (shortApply ['v', 's'] none) :=
  short_token_bundles vsP.arguments ['-', 'v', 's'] ['v', 's'] none
    (by decide) (by decide) (by decide) (by decide)

/-- C4: when `parse_args` returns normally, every spec whose value was still
unset after the token scan has been populated from its `def_val` (slotwise
`defaultFill`); consequently a keyword registered with a default and never
supplied on the command line yields that default from `get_kwarg`. -/
theorem unset_specs_get_defaults (p : ArgumentParser) (argv : List Str)
    (p' : ArgumentParser) (hp : parse_args p argv = .ok p') :
    p'.arguments = (scan_tokens p argv).map defaultFill ∧
    (∀ (nm : Str) (a : Argument) (d : Str),
      lookupName (scan_tokens p argv) nm = some a → a.type = .KWARG →
      a.value = none → a.def_val = some d → get_kwarg p' nm = some d) := by
  have hargs := parse_args_ok_arguments hp
  refine ⟨hargs, ?_⟩
  intro nm a d hl ht hv hd
  have hlk2 : lookupName p'.arguments nm = some (defaultFill a) := by
    rw [hargs, lookupName_map defaultFill_name, hl]
    rfl
  rw [defaultFill_of_none hv, hd] at hlk2
  unfold get_kwarg
  rw [hlk2]
  simp [ht]

/-- Witness for C4: the `count` keyword with default `"7"`, never supplied,
comes back as `"7"` from `get_kwarg` after parsing. -/
theorem unset_specs_get_defaults_w :
    cPd.arguments = (scan_tokens cP [progStr]).map defaultFill ∧
    get_kwarg cPd countName = some ['7'] := by
  have h := unset_specs_get_defaults cP [progStr] cPd (by decide)
  exact ⟨h.1, h.2 countName countSpec ['7'] (by decide) (by decide) (by decide) (by decide)⟩

/-- C5: a registered flag reads false before any parsing (all values unset);
parsing the long-form token `--name` for a flag resolved first by that name
sets `get_flag name` to true; and parsing an argument vector that leaves the
flag unset after the scan leaves `get_flag name` false. -/
theorem get_flag_lifecycle :
    (∀ (p : ArgumentParser) (nm : Str),
      (∀ a ∈ p.arguments, a.value = none) → get_flag p nm = false) ∧
    (∀ (p : ArgumentParser) (prog nm : Str) (a : Argument) (p' : ArgumentParser),
      '=' ∉ nm → lookupName p.arguments nm = some a → a.type = .FLAG →
      parse_args p [prog, '-' :: '-' :: nm] = .ok p' → get_flag p' nm = true) ∧
    (∀ (p : ArgumentParser) (argv : List Str) (nm : Str) (a : Argument) (p' : ArgumentParser),
      lookupName (scan_tokens p argv) nm = some a → a.type = .FLAG →
      a.value = none → a.def_val = none →
      parse_args p argv = .ok p' → get_flag p' nm = false) := by
  refine ⟨?_, ?_, ?_⟩
  · intro p nm hall
    unfold get_flag
    cases hl : lookupName p.arguments nm with
    | none => rfl
    | some a =>
      have hv := hall a (lookupName_mem hl)
      simp [hv]
  · intro p prog nm a p' hnm hl ht hp
    have hargs := parse_args_ok_arguments hp
    rw [scan_tokens_single, processToken_long_noval hnm] at hargs
    have hlk := lookupName_assignLong_flag none hl ht
    have hlk2 : lookupName p'.arguments nm = some (defaultFill { a with value := some trueStr }) := by
      rw [hargs, lookupName_map defaultFill_name, hlk]
      rfl
    rw [defaultFill_of_some
      (show ({ a with value := some trueStr } : Argument).value = some trueStr from rfl)] at hlk2
    unfold get_flag
    rw [hlk2]
    simp [ht]
  · intro p argv nm a p' hl ht hv hd hp
    have hargs := parse_args_ok_arguments hp
    have hlk2 : lookupName p'.arguments nm = some (defaultFill a) := by
      rw [hargs, lookupName_map defaultFill_name, hl]
      rfl
    rw [defaultFill_of_none hv, hd] at hlk2
    unfold get_flag
    rw [hlk2]
    simp [ht]

/-- Witness for C5: the `verbose` flag is false before parsing, true after
parsing `--verbose`, and still false after parsing an empty command line. -/
theorem get_flag_lifecycle_w :
    get_flag vP verbName = false ∧ get_flag vPT verbName = true ∧
    get_flag vP verbName = false :=
  ⟨get_flag_lifecycle.1 vP verbName (by decide),
   get_flag_lifecycle.2.1 vP progStr verbName verbSpec vPT
     (by decide) (by decide) (by decide) (by decide),
   get_flag_lifecycle.2.2 vP [progStr] verbName verbSpec vP
     (by decide) (by decide) (by decide) (by decide) (by decide)⟩

/-- C6: a short-form keyword token with no `=value` part stores the absent
(null) sentinel into the keyword - not its default - because default
substitution happens only in the post-scan pass, and that pass touches only
slots that are still entirely unset (null), filling them from `def_val` and
leaving every slot that holds a value unchanged. -/
theorem short_kwarg_null_sentinel :
    (∀ (as : List Argument) (c : Char) (a : Argument),
      c ≠ '-' → c ≠ '=' → lookupSym as c = some a → a.type = .KWARG →
      lookupSym (processToken as ['-', c]) c = some { a with value := none }) ∧
    (∀ (as as' : List Argument) (i : Nat) (a : Argument),
      postScan as = .ok as' → as[i]? = some a →
      (a.value = none → as'[i]? = some { a with value := a.def_val }) ∧
      (∀ w, a.value = some w → as'[i]? = some a)) := by
  constructor
  · intro as c a hcd hce hl ht
    have hred : processToken as ['-', c] = assignShort as [c] none := by
      unfold processToken
      rw [if_neg (show ¬ ((['-', c] : Str).take 2 = ['-', '-']) from fun heq => by
        injection heq with h1 h2
        injection h2 with h3 h4
        exact hcd h3)]
      rw [if_pos (show ((['-', c] : Str).take 1 = ['-']) from rfl)]
      have hd : (['-', c] : Str).drop 1 = [c] := rfl
      rw [hd, splitEq_no_eq (show '=' ∉ ([c] : Str) from fun hm => by
        rcases List.mem_singleton.mp hm with h1
        exact hce h1.symm)]
    rw [hred]
    have hthis := lookupSym_updateFirst (c := c)
      (f := fun x => if x.type = .FLAG then { x with value := strdup (some trueStr) }
        else { x with value := strdup none }) hl
      (fun x => ⟨by dsimp only; split <;> rfl, by dsimp only; split <;> rfl⟩)
    have hfin : (if a.type = ArgumentType.FLAG then { a with value := strdup (some trueStr) }
        else { a with value := strdup none }) = { a with value := none } := by
      rw [if_neg (fun hc => ArgumentType.noConfusion (ht ▸ hc))]
      rfl
    exact Eq.trans hthis (congrArg some hfin)
  · intro as as' i a hps ha
    obtain ⟨-, hmap⟩ := postScan_ok_iff.mp hps
    subst hmap
    constructor
    · intro hv
      rw [List.getElem?_map, ha]
      simp [defaultFill_of_none hv]
    · intro w hv
      rw [List.getElem?_map, ha]
      simp [defaultFill_of_some hv]

/-- Witness for C6: `-c` on the `count` keyword (default `"7"`) stores the
null sentinel during the scan, and the post-scan pass fills the still-null
slot from the default. -/
theorem short_kwarg_null_sentinel_w :
    lookupSym (processToken cP.arguments ['-', 'c']) 'c' = some { countSpec with value := none } ∧
    ([{ countSpec with value := some ['7'] }] : List Argument)[0]? =
      some { countSpec with value := countSpec.def_val } :=
  ⟨short_kwarg_null_sentinel.1 cP.arguments 'c' countSpec
     (by decide) (by decide) (by decide) (by decide),
   (short_kwarg_null_sentinel.2 cP.arguments [{ countSpec with value := some ['7'] }]
     0 countSpec (by decide) (by decide)).1 (by decide)⟩

/-- C7: a long-form token whose name part matches no registered spec is
silently ignored: the token leaves every registered spec exactly as it was
(the scan loop has no error path at all). -/
theorem unmatched_long_token_ignored (as : List Argument) (t rest : Str)
    (hts : t = '-' :: '-' :: rest)
    (hno : ∀ a ∈ as, a.name ≠ (splitEq rest).1) :
    processToken as t = as := by
  subst hts
  unfold processToken
  rw [if_pos (show (('-' :: '-' :: rest) : Str).take 2 = ['-', '-'] from rfl)]
  have hd : (('-' :: '-' :: rest) : Str).drop 2 = rest := rfl
  rw [hd]
  unfold assignLong
  rw [updateFirst_nomatch (p := nameMatch (splitEq rest).1) (fun a ha hc => hno a ha hc)]
  rw [updateFirst_nomatch (p := namedFK (splitEq rest).1) (fun a ha hc => hno a ha hc.1)]

/-- Witness for C7: the unknown token `--x` leaves the `count` registry
untouched. -/
theorem unmatched_long_token_ignored_w :
    processToken cP.arguments ['-', '-', 'x'] = cP.arguments :=
  unmatched_long_token_ignored cP.arguments ['-', '-', 'x'] ['x'] rfl (by decide)

/-- C8: every accessor is kind-gated on the spec found by the first name
match: `get_arg` returns the null sentinel whenever that spec is not
positional, `get_kwarg` whenever it is not a keyword, `get_flag` returns
false whenever it is not a flag, even though a spec with that exact name
exists; and all three return their sentinel when no spec matches the name. -/
theorem accessors_kind_gated :
    (∀ (p : ArgumentParser) (nm : Str) (a : Argument),
      lookupName p.arguments nm = some a →
      (a.type ≠ .ARG → get_arg p nm = none) ∧
      (a.type ≠ .KWARG → get_kwarg p nm = none) ∧
      (a.type ≠ .FLAG → get_flag p nm = false)) ∧
    (∀ (p : ArgumentParser) (nm : Str),
      lookupName p.arguments nm = none →
      get_arg p nm = none ∧ get_kwarg p nm = none ∧ get_flag p nm = false) := by
  constructor
  · intro p nm a hl
    refine ⟨?_, ?_, ?_⟩ <;> intro ht
    · unfold get_arg
      rw [hl]
      simp [ht]
    · unfold get_kwarg
      rw [hl]
      simp [ht]
    · unfold get_flag
      rw [hl]
      simp [ht]
  · intro p nm hl
    refine ⟨?_, ?_, ?_⟩
    · unfold get_arg
      rw [hl]
    · unfold get_kwarg
      rw [hl]
    · unfold get_flag
      rw [hl]

/-- Witness for C8: on the `count` registry, `get_arg`/`get_flag` reject the
keyword-typed name, and an unknown name yields the sentinels from all three
accessors. -/
theorem accessors_kind_gated_w :
    get_arg cP countName = none ∧ get_flag cP countName = false ∧
    (get_arg cP verbName = none ∧ get_kwarg cP verbName = none ∧
      get_flag cP verbName = false) :=
  ⟨(accessors_kind_gated.1 cP countName countSpec (by decide)).1 (by decide),
   (accessors_kind_gated.1 cP countName countSpec (by decide)).2.2 (by decide),
   accessors_kind_gated.2 cP verbName (by decide)⟩

/-- C9 counterexample: the claim "a spec registered with the NUL sentinel
symbol has no short form" is false: `add_flag` stores the digit `'0'` in
place of the sentinel, so the short token `-0` flips such a flag from unset
to set. -/
theorem sentinel_symbol_counterexample :
    get_flag zeroP zeroName = false ∧
    get_flag { zeroP with arguments := processToken zeroP.arguments ['-', '0'] }
      zeroName = true := by
  decide

/-- C9 amended: registration maps the NUL sentinel symbol to the digit `'0'`
(`sym ? sym : '0'`), so such a spec is addressable in short form precisely
through the character `'0'`; a short-form token whose symbol part does not
contain `'0'` never assigns to it. -/
theorem sentinel_symbol_stored_as_digit :
    (∀ (p : ArgumentParser) (nm : Str) (hlp : Option Str),
      ((add_flag p (Char.ofNat 0) nm hlp).arguments.getLast?).map Argument.sym = some '0') ∧
    (∀ (p : ArgumentParser) (nm : Str) (req : Bool) (dv hlp : Option Str),
      ((add_kwarg p (Char.ofNat 0) nm req dv hlp).arguments.getLast?).map Argument.sym = some '0') ∧
    (∀ (as : List Argument) (t syms : Str) (v : Option Str) (i : Nat) (a : Argument),
      t.take 2 ≠ ['-', '-'] → t.take 1 = ['-'] → splitEq (t.drop 1) = (syms, v) →
      '0' ∉ syms → as[i]? = some a → a.sym = '0' →
      (processToken as t)[i]? = some a) := by
  refine ⟨?_, ?_, ?_⟩
  · intro p nm hlp
    simp [add_flag, List.getLast?_concat, mkSym]
  · intro p nm req dv hlp
    simp [add_kwarg, List.getLast?_concat, mkSym]
  · intro as t syms v i a h2 h1 hs h0 ha hsym
    unfold processToken
    rw [if_neg h2, if_pos h1, hs]
    exact assignShort_getElem ha (fun c hc heq => h0 (by rw [← heq, hsym] at hc; exact hc))

/-- Witness for the amended C9: the sentinel-registered `zero` flag carries
symbol `'0'`, and the short token `-a` (no `'0'` in it) leaves it untouched. -/
theorem sentinel_symbol_stored_as_digit_w :
    ((add_flag emptyP (Char.ofNat 0) zeroName none).arguments.getLast?).map Argument.sym = some '0' ∧
    (processToken zeroP.arguments ['-', 'a'])[0]? = some zeroSpec :=
  ⟨sentinel_symbol_stored_as_digit.1 emptyP zeroName none,
   sentinel_symbol_stored_as_digit.2.2 zeroP.arguments ['-', 'a'] ['a'] none 0 zeroSpec
     (by decide) (by decide) (by decide) (by decide) (by decide) (by decide)⟩

/-- C10: a required spec that also declares a default still makes
`parse_args` terminate the process when no token supplies it: the
required-ness check runs before default substitution in the post-scan pass,
so the declared default never satisfies a required argument. -/
theorem required_with_default_still_exits (p : ArgumentParser) (argv : List Str)
    (a : Argument) (d : Str) (ha : a ∈ scan_tokens p argv)
    (hr : a.required = true) (hv : a.value = none) (_hd : a.def_val = some d) :
    ∃ e, parse_args p argv = .error e ∧ e.exit_code = 1 := by
  obtain ⟨e, he, hc, -⟩ := postScan_error_of_missing ⟨a, ha, hr, hv⟩
  refine ⟨e, ?_, hc⟩
  unfold parse_args
  rw [he]

/-- Witness for C10: the required positional `out` with default `"d"` still
aborts parsing of an empty command line. -/
theorem required_with_default_still_exits_w :
    ∃ e, parse_args reqP [progStr] = .error e ∧ e.exit_code = 1 :=
  required_with_default_still_exits reqP [progStr] reqSpec ['d']
    (by decide) (by decide) (by decide) (by decide)
